import Mathlib

/-!
A shallow embedding of the CHIP-8 interpreter from `src/main.rs`.

Machine state is the `Chip8` struct; register/memory arrays become total
functions `Nat → Nat` updated with `Function.update` (the Rust arrays would
panic on an out-of-bounds index, so theorems about array-touching
instructions carry explicit in-bounds hypotheses).  8-bit and 16-bit
wrapping arithmetic is `% 256` / `% 65536` on `Nat`.  Wall-clock time and
randomness are passed in as explicit `Nat` parameters (`now` in
milliseconds, `rnd` a random byte); `delay_start` / `sound_start` hold the
arm instant as `Option Nat`.  The logging, screen and input collaborators
carry no machine state and are omitted.
-/

structure Chip8 where
  memory : Nat → Nat
  V : Nat → Nat
  R : Nat → Nat
  I : Nat
  pc : Nat
  stack : Nat → Nat
  sp : Nat
  gfx : Nat → Nat
  hgr : Bool
  delay_timer : Nat
  delay_start : Option Nat
  sound_timer : Nat
  sound_start : Option Nat
  key : Nat → Nat
  last_key : Option Nat
  draw_flag : Bool

namespace Chip8

/-- `Chip8::new`: all-zero state except `pc = 0x200`. -/
def new : Chip8 where
  memory := fun _ => 0
  V := fun _ => 0
  R := fun _ => 0
  I := 0
  pc := 0x200
  stack := fun _ => 0
  sp := 0
  gfx := fun _ => 0
  hgr := false
  delay_timer := 0
  delay_start := none
  sound_timer := 0
  sound_start := none
  key := fun _ => 0
  last_key := none
  draw_flag := false

/-- `00E0`: clear the framebuffer. -/
def draw_clear (s : Chip8) : Chip8 :=
  { s with gfx := fun _ => 0, pc := (s.pc + 2) % 65536 }

/-- `00FC`: accepted but moves no pixels. -/
def scroll_left (s : Chip8) : Chip8 :=
  { s with pc := (s.pc + 2) % 65536 }

/-- `00FB`: accepted but moves no pixels. -/
def scroll_right (s : Chip8) : Chip8 :=
  { s with pc := (s.pc + 2) % 65536 }

/-- Row-major cell order walked by `scroll_down`: rows from 31 down to
`start`, columns 0..63 within each row (mirrors
`for row in (start..32).rev() { for col in 0..64 }`). -/
def scrollCells (start : Nat) : List (Nat × Nat) :=
  ((List.range (32 - start)).reverse.map (fun i => start + i)).foldr
    (fun r acc => ((List.range 64).map (fun c => (r, c))) ++ acc) []

/-- One assignment `gfx[row*64+col] = gfx[(row-start)*64+col]`; the index
arithmetic is u8 in the source, hence the `% 256`. -/
def scrollStep (start : Nat) (g : Nat → Nat) (rc : Nat × Nat) : Nat → Nat :=
  Function.update g ((rc.1 * 64 + rc.2) % 256) (g (((rc.1 - start) * 64 + rc.2) % 256))

/-- `00CN`: scroll the screen down by `V[x]` rows. -/
def scroll_down (s : Chip8) (x : Nat) : Chip8 :=
  let start := s.V x
  { s with gfx := List.foldl (scrollStep start) s.gfx (scrollCells start),
           pc := (s.pc + 2) % 65536 }

/-- `00FE`/`00FF`: flip the resolution-mode flag. -/
def set_hgr (s : Chip8) (enable : Bool) : Chip8 :=
  { s with hgr := enable, pc := (s.pc + 2) % 65536 }

/-- Pixel index targeted by sprite bit `(row, col)` at origin `(vx, vy)`. -/
def dPos (vx vy : Nat) (p : Nat × Nat) : Nat :=
  vx + p.2 + (vy + p.1) * 64

/-- Sprite positions walked by the low-resolution draw loop: rows `0..n`
ascending, columns `0..8` within each row. -/
def sprPositions : Nat → List (Nat × Nat)
  | 0 => []
  | n + 1 => sprPositions n ++ (List.range 8).map (fun c => (n, c))

/-- One low-resolution loop iteration on the accumulator
`(gfx, collision flag)`: test `memory[I+row] & (0x80 >> col)`, and on a set
bit record a collision if the pixel is lit, then XOR it. -/
def drawStep (mem : Nat → Nat) (i vx vy : Nat)
    (acc : (Nat → Nat) × Nat) (p : Nat × Nat) : (Nat → Nat) × Nat :=
  if mem (i + p.1) &&& (128 >>> p.2) ≠ 0 then
    (Function.update acc.1 (dPos vx vy p) (acc.1 (dPos vx vy p) ^^^ 1),
     if acc.1 (dPos vx vy p) = 1 then 1 else acc.2)
  else acc

/-- Sprite positions walked by the high-resolution draw loop: rows and
columns both `0..0xF` (15, not 16 — the source's asymmetry). -/
def sprPositionsH : List (Nat × Nat) :=
  (List.range 15).foldr (fun r acc => ((List.range 15).map (fun c => (r, c))) ++ acc) []

/-- One high-resolution loop iteration: the 16-bit row is
`memory[I+2*row] << 8 | memory[I+1+2*row]`, tested against `0x8000 >> col`. -/
def drawStepH (mem : Nat → Nat) (i vx vy : Nat)
    (acc : (Nat → Nat) × Nat) (p : Nat × Nat) : (Nat → Nat) × Nat :=
  if ((mem (i + 2 * p.1) <<< 8) ||| mem (i + 1 + 2 * p.1)) &&& (32768 >>> p.2) ≠ 0 then
    (Function.update acc.1 (dPos vx vy p) (acc.1 (dPos vx vy p) ^^^ 1),
     if acc.1 (dPos vx vy p) = 1 then 1 else acc.2)
  else acc

/-- High-resolution draw (`DXY0` in hgr mode): fixed 15×15 region, `n` ignored. -/
def draw_x_y_high (s : Chip8) (x y : Nat) : Chip8 :=
  let vx := s.V x
  let vy := s.V y
  let r := List.foldl (drawStepH s.memory s.I vx vy) (s.gfx, 0) sprPositionsH
  { s with gfx := r.1, V := Function.update s.V 15 r.2,
           draw_flag := true, pc := (s.pc + 2) % 65536 }

/-- `DXYN`: low-resolution XOR sprite draw (delegates to the
high-resolution path when `hgr` is set and `n = 0`). -/
def draw_x_y_low (s : Chip8) (x y n : Nat) : Chip8 :=
  if s.hgr = true ∧ n = 0 then draw_x_y_high s x y
  else
    let vx := s.V x
    let vy := s.V y
    let r := List.foldl (drawStep s.memory s.I vx vy) (s.gfx, 0) (sprPositions n)
    { s with gfx := r.1, V := Function.update s.V 15 r.2,
             draw_flag := true, pc := (s.pc + 2) % 65536 }

/-- `FX07`: read the delay timer; elapsed ticks are truncated to u8 by the
source's `as u8` cast, hence the `% 256`. -/
def get_delay (s : Chip8) (x now : Nat) : Chip8 :=
  match s.delay_start with
  | some t0 =>
      let as_hertz := ((now - t0) * 60 / 1000) % 256
      let v := if s.delay_timer ≤ as_hertz then 0 else s.delay_timer - as_hertz
      { s with V := Function.update s.V x v, pc := (s.pc + 2) % 65536 }
  | none => { s with pc := (s.pc + 2) % 65536 }

/-- The sound-timer read path (not dispatched, but mirrors `get_delay`
with a strict comparison). -/
def get_sound_delay (s : Chip8) (x now : Nat) : Chip8 :=
  match s.sound_start with
  | some t0 =>
      let as_hertz := ((now - t0) * 60 / 1000) % 256
      let v := if s.sound_timer < as_hertz then 0 else s.sound_timer - as_hertz
      { s with V := Function.update s.V x v, pc := (s.pc + 2) % 65536 }
  | none => { s with pc := (s.pc + 2) % 65536 }

/-- `3XNN`: skip the next instruction if `V[x] == nn`. -/
def if_vx_eq_nn (s : Chip8) (x nn : Nat) : Chip8 :=
  if s.V x = nn then { s with pc := (s.pc + 4) % 65536 }
  else { s with pc := (s.pc + 2) % 65536 }

/-- `4XNN`: skip the next instruction if `V[x] != nn`. -/
def if_not_eq (s : Chip8) (x nn : Nat) : Chip8 :=
  if s.V x ≠ nn then { s with pc := (s.pc + 4) % 65536 }
  else { s with pc := (s.pc + 2) % 65536 }

/-- `5XY0`: skip the next instruction if `V[x] == V[y]`. -/
def if_eq (s : Chip8) (x y : Nat) : Chip8 :=
  if s.V x = s.V y then { s with pc := (s.pc + 4) % 65536 }
  else { s with pc := (s.pc + 2) % 65536 }

/-- `FX15`: arm the delay timer with `V[x]` at instant `now`. -/
def start_delay (s : Chip8) (x now : Nat) : Chip8 :=
  { s with delay_start := some now, delay_timer := s.V x, pc := (s.pc + 2) % 65536 }

/-- `FX18`: arm the sound timer with `V[x]` at instant `now`. -/
def start_sound_delay (s : Chip8) (x now : Nat) : Chip8 :=
  { s with sound_start := some now, sound_timer := s.V x, pc := (s.pc + 2) % 65536 }

/-- `ANNN`: set the index register. -/
def set_i (s : Chip8) (nnn : Nat) : Chip8 :=
  { s with I := nnn, pc := (s.pc + 2) % 65536 }

/-- `6XNN`: set `V[x]` to `nn`. -/
def set_v (s : Chip8) (x nn : Nat) : Chip8 :=
  { s with V := Function.update s.V x nn, pc := (s.pc + 2) % 65536 }

/-- `7XNN`: wrapping add of an immediate; the source then unconditionally
writes 0 into `V[0xF]` (so with `x = 0xF` the zeroing wins). -/
def add_v (s : Chip8) (x nn : Nat) : Chip8 :=
  { s with V := Function.update (Function.update s.V x ((s.V x + nn) % 256)) 15 0,
           pc := (s.pc + 2) % 65536 }

/-- `8XY0`: copy `V[y]` to `V[x]`. -/
def set_v_v (s : Chip8) (x y : Nat) : Chip8 :=
  { s with V := Function.update s.V x (s.V y), pc := (s.pc + 2) % 65536 }

/-- `8XY1`: bitwise OR. -/
def vx_or_vy (s : Chip8) (x y : Nat) : Chip8 :=
  { s with V := Function.update s.V x (s.V x ||| s.V y), pc := (s.pc + 2) % 65536 }

/-- `8XY2`: bitwise AND. -/
def vx_and_vy (s : Chip8) (x y : Nat) : Chip8 :=
  { s with V := Function.update s.V x (s.V x &&& s.V y), pc := (s.pc + 2) % 65536 }

/-- `8XY3`: bitwise XOR. -/
def vx_xor_vy (s : Chip8) (x y : Nat) : Chip8 :=
  { s with V := Function.update s.V x (s.V x ^^^ s.V y), pc := (s.pc + 2) % 65536 }

/-- `8XY4`: wrapping add, then `V[0xF] := carry` (written after `V[x]`). -/
def vx_add_vy_carry (s : Chip8) (x y : Nat) : Chip8 :=
  { s with V := Function.update (Function.update s.V x ((s.V x + s.V y) % 256)) 15
                  (if 256 ≤ s.V x + s.V y then 1 else 0),
           pc := (s.pc + 2) % 65536 }

/-- `8XY5`: `V[x] -= V[y]` wrapping, then `V[0xF] := !borrow`
(both operands are u8, hence the `+ 256 ... % 256` wrap). -/
def vx_sub_vy_borrow (s : Chip8) (x y : Nat) : Chip8 :=
  { s with V := Function.update (Function.update s.V x ((s.V x + 256 - s.V y) % 256)) 15
                  (if s.V x < s.V y then 0 else 1),
           pc := (s.pc + 2) % 65536 }

/-- `8XY7`: `V[x] = V[y] - V[x]` wrapping, then `V[0xF] := !borrow`. -/
def vy_sub_vx_borrow (s : Chip8) (x y : Nat) : Chip8 :=
  { s with V := Function.update (Function.update s.V x ((s.V y + 256 - s.V x) % 256)) 15
                  (if s.V y < s.V x then 0 else 1),
           pc := (s.pc + 2) % 65536 }

/-- `8XY6`: `V[0xF] := V[y] & 1` first, then `V[x] := V[y] >> 1` — the
second read of `V[y]` happens after the flag write, as in the source. -/
def vx_as_rshift_vy (s : Chip8) (x y : Nat) : Chip8 :=
  let V1 := Function.update s.V 15 (s.V y &&& 1)
  { s with V := Function.update V1 x (V1 y >>> 1), pc := (s.pc + 2) % 65536 }

/-- `8XYE`: `V[0xF] := (V[y] & 0xF0 != 0)` first (the source tests the whole
high nibble, not bit 7), then `V[x] := V[y] << 1` truncated to u8. -/
def vx_as_lshift_vy (s : Chip8) (x y : Nat) : Chip8 :=
  let V1 := Function.update s.V 15 (if s.V y &&& 0xF0 ≠ 0 then 1 else 0)
  { s with V := Function.update V1 x ((V1 y <<< 1) % 256), pc := (s.pc + 2) % 65536 }

/-- `9XY0`: the source tests `V[x] != V[y]` and advances by 4 on that branch. -/
def if_vx_eq_vy (s : Chip8) (x y : Nat) : Chip8 :=
  if s.V x ≠ s.V y then { s with pc := (s.pc + 4) % 65536 }
  else { s with pc := (s.pc + 2) % 65536 }

/-- `FX1E`: `I += V[x]`. -/
def i_add_vx (s : Chip8) (x : Nat) : Chip8 :=
  { s with I := (s.I + s.V x) % 65536, pc := (s.pc + 2) % 65536 }

/-- `1NNN`: jump. -/
def jmp (s : Chip8) (nnn : Nat) : Chip8 :=
  { s with pc := nnn }

/-- `BNNN`: jump to `V[0] + nnn`. -/
def jmp_v0 (s : Chip8) (nnn : Nat) : Chip8 :=
  { s with pc := (s.V 0 + nnn) % 65536 }

/-- `2NNN`: push the current `pc`, jump, bump `sp`. -/
def jsr (s : Chip8) (nnn : Nat) : Chip8 :=
  { s with stack := Function.update s.stack s.sp s.pc,
           pc := nnn,
           sp := (s.sp + 1) % 65536 }

/-- `00EE`: pop `stack[sp-1]`, decrement `sp`, and advance past the call
(`sp - 1` is truncated Nat subtraction; the source's u16 would panic at 0). -/
def ret (s : Chip8) : Chip8 :=
  { s with pc := (s.stack (s.sp - 1) + 2) % 65536, sp := s.sp - 1 }

/-- `00FD`: park `pc` at the out-of-range sentinel. -/
def do_exit (s : Chip8) : Chip8 :=
  { s with pc := 0xFFFF }

/-- `0NNN`: native-call stub — logs only, no state change, no `pc` advance. -/
def native_call (s : Chip8) (_nnn : Nat) : Chip8 := s

/-- `CXNN`: `V[x] := random_byte & nn`; the random byte is a parameter. -/
def vx_rnd (s : Chip8) (x nn rnd : Nat) : Chip8 :=
  { s with V := Function.update s.V x (rnd &&& nn), pc := (s.pc + 2) % 65536 }

/-- `FX29`: point `I` at the low-res glyph for `V[x]`; `5 * V[x]` is a u8
product in the source, hence the `% 256`. -/
def i_as_sprite_vx (s : Chip8) (x : Nat) : Chip8 :=
  { s with I := 0x50 + (5 * s.V x) % 256, pc := (s.pc + 2) % 65536 }

/-- `FX30`: point `I` at the high-res glyph for `V[x]`. -/
def i_as_hgr_sprite_vx (s : Chip8) (x : Nat) : Chip8 :=
  { s with I := 0xA0 + (10 * s.V x) % 256, pc := (s.pc + 2) % 65536 }

/-- `FX33`: BCD expansion of `V[x]` into `memory[I..I+3]`. -/
def vx_as_bcd (s : Chip8) (x : Nat) : Chip8 :=
  let m1 := Function.update s.memory s.I (s.V x / 100)
  let m2 := Function.update m1 (s.I + 1) (s.V x / 10 % 10)
  let m3 := Function.update m2 (s.I + 2) (s.V x % 10)
  { s with memory := m3, pc := (s.pc + 2) % 65536 }

/-- The memory after `k` writes `memory[i + c] = V[c]`, `c = 0..k-1`. -/
def wrStore (mem V : Nat → Nat) (i : Nat) : Nat → (Nat → Nat)
  | 0 => mem
  | k + 1 => Function.update (wrStore mem V i k) (i + k) (V k)

/-- The register file after `k` reads `V[c] = mem[i + c]`, `c = 0..k-1`. -/
def rdLoad (V mem : Nat → Nat) (i : Nat) : Nat → (Nat → Nat)
  | 0 => V
  | k + 1 => Function.update (rdLoad V mem i k) k (mem (i + k))

/-- `FX55`: store `V[0..=x]` to memory at `I`, then `I += x + 1`. -/
def store_v0_vx (s : Chip8) (x : Nat) : Chip8 :=
  { s with memory := wrStore s.memory s.V s.I (x + 1),
           I := (s.I + x + 1) % 65536, pc := (s.pc + 2) % 65536 }

/-- `FX65`: load `V[0..=x]` from memory at `I`, then `I += x + 1`. -/
def read_v0_vx (s : Chip8) (x : Nat) : Chip8 :=
  { s with V := rdLoad s.V s.memory s.I (x + 1),
           I := (s.I + x + 1) % 65536, pc := (s.pc + 2) % 65536 }

/-- `FX75`: store `V[0..=x]` to the persistent flag file `R`, indexed from
`I` exactly as the source does, then `I += x + 1`. -/
def store_rpl_v0_vx (s : Chip8) (x : Nat) : Chip8 :=
  { s with R := wrStore s.R s.V s.I (x + 1),
           I := (s.I + x + 1) % 65536, pc := (s.pc + 2) % 65536 }

/-- `FX85`: load `V[0..=x]` from the persistent flag file `R` at `I`,
then `I += x + 1`. -/
def read_rpl_v0_vx (s : Chip8) (x : Nat) : Chip8 :=
  { s with V := rdLoad s.V s.R s.I (x + 1),
           I := (s.I + x + 1) % 65536, pc := (s.pc + 2) % 65536 }

/-- `EX9E`: skip if the key numbered `V[x]` is pressed. -/
def skip_if_key_vx (s : Chip8) (x : Nat) : Chip8 :=
  if s.key (s.V x) ≠ 0 then { s with pc := (s.pc + 4) % 65536 }
  else { s with pc := (s.pc + 2) % 65536 }

/-- `EXA1`: skip if the key numbered `V[x]` is not pressed. -/
def skip_if_not_key_vx (s : Chip8) (x : Nat) : Chip8 :=
  if s.key (s.V x) = 0 then { s with pc := (s.pc + 4) % 65536 }
  else { s with pc := (s.pc + 2) % 65536 }

/-- `FX0A`: polling key wait — only advances when a key is latched. -/
def wait_for_next_key (s : Chip8) (x : Nat) : Chip8 :=
  match s.last_key with
  | some k => { s with V := Function.update s.V x k, pc := (s.pc + 2) % 65536 }
  | none => s

/-- The dispatch match of `emulate_cycle`, arm for arm and in the source's
order; `none` is the catch-all that only logs "Unknown Opcode". -/
def decodeExec (s : Chip8) (now rnd : Nat) : Option Chip8 :=
  let b0 := s.memory s.pc
  let b1 := s.memory (s.pc + 1)
  let n0 := b0 >>> 4
  let n1 := b0 &&& 0x0F
  let n2 := b1 >>> 4
  let n3 := b1 &&& 0x0F
  let nn := b1
  let nnn := (n1 <<< 8) ||| nn
  match n0, n1, n2, n3 with
  | 0, 0, 0xC, x => some (s.scroll_down x)
  | 0, 0, 0xF, 0xB => some s.scroll_right
  | 0, 0, 0xF, 0xC => some s.scroll_left
  | 0, 0, 0xF, 0xD => some s.do_exit
  | 0, 0, 0xF, 0xE => some (s.set_hgr false)
  | 0, 0, 0xF, 0xF => some (s.set_hgr true)
  | 0, 0, 0xE, 0 => some s.draw_clear
  | 0, 0, 0xE, 0xE => some s.ret
  | 0, _, _, _ => some (s.native_call nnn)
  | 1, _, _, _ => some (s.jmp nnn)
  | 2, _, _, _ => some (s.jsr nnn)
  | 3, x, _, _ => some (s.if_vx_eq_nn x nn)
  | 4, x, _, _ => some (s.if_not_eq x nn)
  | 5, x, y, 0 => some (s.if_eq x y)
  | 6, x, _, _ => some (s.set_v x nn)
  | 7, x, _, _ => some (s.add_v x nn)
  | 8, x, y, 0 => some (s.set_v_v x y)
  | 8, x, y, 1 => some (s.vx_or_vy x y)
  | 8, x, y, 2 => some (s.vx_and_vy x y)
  | 8, x, y, 3 => some (s.vx_xor_vy x y)
  | 8, x, y, 4 => some (s.vx_add_vy_carry x y)
  | 8, x, y, 5 => some (s.vx_sub_vy_borrow x y)
  | 8, x, y, 6 => some (s.vx_as_rshift_vy x y)
  | 8, x, y, 7 => some (s.vy_sub_vx_borrow x y)
  | 8, x, y, 0xE => some (s.vx_as_lshift_vy x y)
  | 9, x, y, 0 => some (s.if_vx_eq_vy x y)
  | 0xA, _, _, _ => some (s.set_i nnn)
  | 0xB, _, _, _ => some (s.jmp_v0 nnn)
  | 0xC, x, _, _ => some (s.vx_rnd x nn rnd)
  | 0xD, x, y, m => some (s.draw_x_y_low x y m)
  | 0xE, x, 9, 0xE => some (s.skip_if_key_vx x)
  | 0xE, x, 0xA, 1 => some (s.skip_if_not_key_vx x)
  | 0xF, x, 0, 7 => some (s.get_delay x now)
  | 0xF, x, 0, 0xA => some (s.wait_for_next_key x)
  | 0xF, x, 1, 5 => some (s.start_delay x now)
  | 0xF, x, 1, 8 => some (s.start_sound_delay x now)
  | 0xF, x, 1, 0xE => some (s.i_add_vx x)
  | 0xF, x, 2, 9 => some (s.i_as_sprite_vx x)
  | 0xF, x, 3, 0 => some (s.i_as_hgr_sprite_vx x)
  | 0xF, x, 3, 3 => some (s.vx_as_bcd x)
  | 0xF, x, 5, 5 => some (s.store_v0_vx x)
  | 0xF, x, 6, 5 => some (s.read_v0_vx x)
  | 0xF, x, 7, 5 => some (s.store_rpl_v0_vx x)
  | 0xF, x, 8, 5 => some (s.read_rpl_v0_vx x)
  | _, _, _, _ => none

/-- One fetch/decode/execute cycle: on an unmatched pattern the state is
returned unchanged (the source only logs). -/
def emulate_cycle (s : Chip8) (now rnd : Nat) : Chip8 :=
  (decodeExec s now rnd).getD s

end Chip8

/-! ## Concrete states and invariant predicates used by the claim theorems -/

/-- Concrete state for C1: every register holds 5. -/
def exC1 : Chip8 := { Chip8.new with V := fun _ => 5 }

/-- Concrete state for C3: `V[1] = 0x10` (bit 7 clear, bit 4 set). -/
def exC3 : Chip8 := { Chip8.new with V := fun i => if i = 1 then 0x10 else 0 }

/-- Concrete state for C5: `V[0xF] = 5`, `V[0] = 3`. -/
def exC5 : Chip8 :=
  { Chip8.new with V := fun i => if i = 15 then 5 else if i = 0 then 3 else 0 }

/-- Concrete state for C9: opcode `0x5001` at `pc = 0x200`; nibbles
`(5, 0, 0, 1)` match no arm (the `5xy0` arm needs the final nibble 0). -/
def exC9 : Chip8 :=
  { Chip8.new with
      memory := fun a => if a = 0x200 then 0x50 else if a = 0x201 then 0x01 else 0 }

/-- Concrete state for C4: delay timer armed at instant 0 with value 10. -/
def exC4 : Chip8 := { Chip8.new with delay_start := some 0, delay_timer := 10 }

/-- Concrete state for C7: a one-row sprite `0x80` at `I = 0`, drawn at the
origin on a clear screen. -/
def exC7 : Chip8 := { Chip8.new with memory := fun a => if a = 0 then 128 else 0 }

/-- Every visible framebuffer cell holds 0 or 1. -/
def gfxOk (s : Chip8) : Prop :=
  ∀ g, g < 2048 → s.gfx g = 0 ∨ s.gfx g = 1

/-! ## Claim theorems -/

/-- C1 counterexample: at `x = 0xF` the unconditional flag zeroing
overwrites the wrapped sum, so `V[x]` does not receive
`(old V[x] + nn) mod 256` (here `0 ≠ 6`). -/
theorem add_v_claim_false :
    (Chip8.add_v exC1 15 1).V 15 ≠ (exC1.V 15 + 1) % 256 := by decide

/-- C1 (amended): `add_v` stores the wrapped sum into `V[x]` for `x ≠ 0xF`,
unconditionally ends with `V[0xF] = 0` (for `x = 0xF` the zeroing wins),
advances `pc` by 2, and touches no other register. -/
theorem add_v_spec (s : Chip8) (x nn : Nat) (_hx : x < 16) (hpc : s.pc + 2 < 65536) :
    (Chip8.add_v s x nn).V 15 = 0 ∧
    (x ≠ 15 → (Chip8.add_v s x nn).V x = (s.V x + nn) % 256) ∧
    (Chip8.add_v s x nn).pc = s.pc + 2 ∧
    (∀ j, j ≠ x → j ≠ 15 → (Chip8.add_v s x nn).V j = s.V j) := by
  refine ⟨?_, ?_, ?_, ?_⟩
  · simp [Chip8.add_v]
  · intro h15
    simp [Chip8.add_v, Function.update_noteq h15]
  · simp [Chip8.add_v]
    omega
  · intro j hjx hj15
    simp [Chip8.add_v, Function.update_noteq hj15, Function.update_noteq hjx]

/-- C1 witness: the amended statement evaluated at `x = 0`, `nn = 255` on
the fresh machine. -/
theorem add_v_spec_witness :
    (Chip8.add_v Chip8.new 0 255).V 15 = 0 ∧
    (Chip8.add_v Chip8.new 0 255).V 0 = 255 ∧
    (Chip8.add_v Chip8.new 0 255).pc = Chip8.new.pc + 2 := by
  have h := add_v_spec Chip8.new 0 255 (by decide) (by decide)
  refine ⟨h.1, ?_, h.2.2.1⟩
  rw [h.2.1 (by decide)]
  decide

/-- C2 counterexample: with `V[0] = V[1]` the `9xy0` handler advances `pc`
by 2, not by 4 — the skip fires on inequality, not on equality. -/
theorem if_vx_eq_vy_claim_false :
    Chip8.new.V 0 = Chip8.new.V 1 ∧
    (Chip8.if_vx_eq_vy Chip8.new 0 1).pc ≠ Chip8.new.pc + 4 := by decide

/-- C2 (amended): `9xy0` advances `pc` by 4 when `V[x] ≠ V[y]` and by 2
when `V[x] = V[y]` — the externally observed skip condition is "skip when
the registers differ". -/
theorem if_vx_eq_vy_spec (s : Chip8) (x y : Nat) (hpc : s.pc + 4 < 65536) :
    (s.V x ≠ s.V y → (Chip8.if_vx_eq_vy s x y).pc = s.pc + 4) ∧
    (s.V x = s.V y → (Chip8.if_vx_eq_vy s x y).pc = s.pc + 2) := by
  constructor
  · intro h
    simp [Chip8.if_vx_eq_vy, h]
    omega
  · intro h
    simp [Chip8.if_vx_eq_vy, h]
    omega

/-- C2 witness: the amended statement at a state where `V[0] = 7 ≠ 0 = V[1]`. -/
theorem if_vx_eq_vy_spec_witness :
    (Chip8.if_vx_eq_vy { Chip8.new with V := fun i => if i = 0 then 7 else 0 } 0 1).pc =
      { Chip8.new with V := fun i => if i = 0 then 7 else 0 }.pc + 4 :=
  (if_vx_eq_vy_spec { Chip8.new with V := fun i => if i = 0 then 7 else 0 } 0 1
    (by decide)).1 (by decide)

/-- C3: the left-shift handler's flag diverges from its own comment
("Vf is the shifted bit") and from the claim: for `V[y] = 0x10` bit 7 is 0,
yet the code sets `V[0xF] = 1` because it tests the whole high nibble
`V[y] & 0xF0`.  The shifted result itself (`0x20`) is stored correctly. -/
theorem vx_as_lshift_vy_flag_bug :
    exC3.V 1 &&& 128 = 0 ∧
    (Chip8.vx_as_lshift_vy exC3 0 1).V 15 = 1 ∧
    (Chip8.vx_as_lshift_vy exC3 0 1).V 0 = 32 := by decide

/-- C5 counterexample: for `x = 0xF` the flag write lands after the result
write, so `V[x]` holds the carry bit (0), not the wrapped sum (8). -/
theorem vx_add_vy_carry_claim_false :
    (Chip8.vx_add_vy_carry exC5 15 0).V 15 ≠ (exC5.V 15 + exC5.V 0) % 256 := by decide

/-- C5 (amended): the three flag outputs are as claimed for every `x, y`
(`8xy4`: carry iff the sum reaches 256; `8xy5`/`8xy7`: 0 iff the
subtraction borrows), and the wrapped result reaches `V[x]` whenever
`x ≠ 0xF`; for `x = 0xF` the subsequent flag write overwrites it. -/
theorem reg_arith_flags_spec (s : Chip8) (x y : Nat) :
    ((Chip8.vx_add_vy_carry s x y).V 15 = (if 256 ≤ s.V x + s.V y then 1 else 0) ∧
      (x ≠ 15 → (Chip8.vx_add_vy_carry s x y).V x = (s.V x + s.V y) % 256)) ∧
    ((Chip8.vx_sub_vy_borrow s x y).V 15 = (if s.V x < s.V y then 0 else 1) ∧
      (x ≠ 15 → (Chip8.vx_sub_vy_borrow s x y).V x = (s.V x + 256 - s.V y) % 256)) ∧
    ((Chip8.vy_sub_vx_borrow s x y).V 15 = (if s.V y < s.V x then 0 else 1) ∧
      (x ≠ 15 → (Chip8.vy_sub_vx_borrow s x y).V x = (s.V y + 256 - s.V x) % 256)) := by
  refine ⟨⟨?_, fun h => ?_⟩, ⟨?_, fun h => ?_⟩, ⟨?_, fun h => ?_⟩⟩
  · simp [Chip8.vx_add_vy_carry]
  · simp [Chip8.vx_add_vy_carry, Function.update_noteq h]
  · simp [Chip8.vx_sub_vy_borrow]
  · simp [Chip8.vx_sub_vy_borrow, Function.update_noteq h]
  · simp [Chip8.vy_sub_vx_borrow]
  · simp [Chip8.vy_sub_vx_borrow, Function.update_noteq h]

/-- C5 witness: the amended statement at `x = 0`, `y = 15` on the C5 state
(`3 + 5 = 8`, no carry; `3 - 5` borrows; `5 - 3` does not). -/
theorem reg_arith_flags_spec_witness :
    (Chip8.vx_add_vy_carry exC5 0 15).V 15 = 0 ∧
    (Chip8.vx_add_vy_carry exC5 0 15).V 0 = 8 ∧
    (Chip8.vx_sub_vy_borrow exC5 0 15).V 15 = 0 ∧
    (Chip8.vy_sub_vx_borrow exC5 0 15).V 15 = 1 := by
  have h := reg_arith_flags_spec exC5 0 15
  refine ⟨?_, ?_, ?_, ?_⟩
  · rw [h.1.1]; decide
  · rw [h.1.2 (by decide)]; decide
  · rw [h.2.1.1]; decide
  · rw [h.2.2.1]; decide

/-- C8: `jsr nnn` immediately followed by `ret` lands at the pre-call
`pc + 2` and restores `sp`, provided the stack has room for one push. -/
theorem jsr_ret_spec (s : Chip8) (nnn : Nat) (hsp : s.sp + 1 < 16)
    (hpc : s.pc + 2 < 65536) :
    (Chip8.ret (Chip8.jsr s nnn)).pc = s.pc + 2 ∧
    (Chip8.ret (Chip8.jsr s nnn)).sp = s.sp := by
  have hsp' : (s.sp + 1) % 65536 = s.sp + 1 := Nat.mod_eq_of_lt (by omega)
  constructor
  · simp [Chip8.ret, Chip8.jsr, hsp']
    omega
  · simp [Chip8.ret, Chip8.jsr, hsp']

/-- C8 witness: push/pop from the fresh machine returns to `0x202`. -/
theorem jsr_ret_spec_witness :
    (Chip8.ret (Chip8.jsr Chip8.new 0x300)).pc = Chip8.new.pc + 2 ∧
    (Chip8.ret (Chip8.jsr Chip8.new 0x300)).sp = Chip8.new.sp :=
  jsr_ret_spec Chip8.new 0x300 (by decide) (by decide)

/-- C9: when the fetched nibble tuple matches no dispatch arm, one
`emulate_cycle` leaves the machine state unchanged — in particular `pc`
does not advance, so the next cycle re-fetches the same instruction. -/
theorem unknown_opcode_spec (s : Chip8) (now rnd : Nat)
    (h : Chip8.decodeExec s now rnd = none) :
    Chip8.emulate_cycle s now rnd = s := by
  simp [Chip8.emulate_cycle, h]

/-- C9 witness: the `0x5001` fetch decodes to no arm and the cycle is the
identity on the state. -/
theorem unknown_opcode_spec_witness :
    Chip8.decodeExec exC9 0 0 = none ∧ Chip8.emulate_cycle exC9 0 0 = exC9 :=
  ⟨rfl, unknown_opcode_spec exC9 0 0 rfl⟩

/-- C4 counterexample: 4267 ms after arming with 10, the untruncated tick
count is 256 (≥ 10, so the claim demands a 0 read), but the source's
`as u8` cast turns it into 0 and the read returns the full armed value 10
— the timer does not stay at 0. -/
theorem get_delay_claim_false :
    4267 * 60 / 1000 = 256 ∧
    exC4.delay_timer = 10 ∧
    (Chip8.get_delay exC4 0 4267).V 0 = 10 := by decide

/-- C4 (amended): reading an armed delay timer at instant `now` stores
`armed_value - (floor(elapsed_ms * 60 / 1000) mod 256)` saturated at 0 when
that truncated tick count reaches the armed value; the read value never
exceeds the armed value (but the tick count wraps every 256 ticks, so the
value can climb back after ≈4.27 s); `pc` advances by 2; the sound-timer
read path yields the same value function for its timer. -/
theorem get_delay_spec (s : Chip8) (x now t0 : Nat) (hd : s.delay_start = some t0) :
    ((Chip8.get_delay s x now).V x =
      (if s.delay_timer ≤ ((now - t0) * 60 / 1000) % 256 then 0
       else s.delay_timer - ((now - t0) * 60 / 1000) % 256)) ∧
    (Chip8.get_delay s x now).V x ≤ s.delay_timer ∧
    (Chip8.get_delay s x now).pc = (s.pc + 2) % 65536 ∧
    (∀ t1, s.sound_start = some t1 →
      (Chip8.get_sound_delay s x now).V x =
        (if s.sound_timer ≤ ((now - t1) * 60 / 1000) % 256 then 0
         else s.sound_timer - ((now - t1) * 60 / 1000) % 256)) := by
  refine ⟨?_, ?_, ?_, ?_⟩
  · simp [Chip8.get_delay, hd]
  · simp only [Chip8.get_delay, hd]
    simp only [Function.update_same]
    split <;> omega
  · simp [Chip8.get_delay, hd]
  · intro t1 hs
    simp only [Chip8.get_sound_delay, hs, Function.update_same]
    rcases Nat.lt_trichotomy s.sound_timer (((now - t1) * 60 / 1000) % 256) with h | h | h
    · rw [if_pos h, if_pos (Nat.le_of_lt h)]
    · rw [if_neg (by omega), if_pos (by omega)]
      omega
    · rw [if_neg (by omega), if_neg (by omega)]

/-- C4 witness: reading immediately after arming (elapsed 0 ms) returns the
armed value 10 and advances `pc`. -/
theorem get_delay_spec_witness :
    (Chip8.get_delay exC4 0 0).V 0 = 10 ∧
    (Chip8.get_delay exC4 0 0).V 0 ≤ exC4.delay_timer ∧
    (Chip8.get_delay exC4 0 0).pc = (exC4.pc + 2) % 65536 := by
  have h := get_delay_spec exC4 0 0 0 rfl
  refine ⟨?_, h.2.1, h.2.2.1⟩
  rw [h.1]
  decide

/-- After `k` writes `mem[i+c] := V c`, address `i + c` with `c < k` holds `V c`. -/
theorem wrStore_lt (mem V : Nat → Nat) (i : Nat) :
    ∀ k c, c < k → Chip8.wrStore mem V i k (i + c) = V c := by
  intro k
  induction k with
  | zero => intro c hc; omega
  | succ k ih =>
      intro c hc
      by_cases h : c = k
      · subst h
        simp [Chip8.wrStore]
      · simp only [Chip8.wrStore]
        rw [Function.update_noteq (by omega : i + c ≠ i + k)]
        exact ih c (by omega)

/-- Addresses outside the written window are untouched by `wrStore`. -/
theorem wrStore_out (mem V : Nat → Nat) (i : Nat) :
    ∀ k a, (∀ c, c < k → a ≠ i + c) → Chip8.wrStore mem V i k a = mem a := by
  intro k
  induction k with
  | zero => intro a _; rfl
  | succ k ih =>
      intro a ha
      simp only [Chip8.wrStore]
      rw [Function.update_noteq (ha k (by omega))]
      exact ih a (fun c hc => ha c (by omega))

/-- After `k` reads `V c := mem[i+c]`, register `c < k` holds `mem (i + c)`. -/
theorem rdLoad_lt (V mem : Nat → Nat) (i : Nat) :
    ∀ k c, c < k → Chip8.rdLoad V mem i k c = mem (i + c) := by
  intro k
  induction k with
  | zero => intro c hc; omega
  | succ k ih =>
      intro c hc
      by_cases h : c = k
      · subst h
        simp [Chip8.rdLoad]
      · simp only [Chip8.rdLoad]
        rw [Function.update_noteq (by omega : c ≠ k)]
        exact ih c (by omega)

/-- Registers at or above the read window are untouched by `rdLoad`. -/
theorem rdLoad_ge (V mem : Nat → Nat) (i : Nat) :
    ∀ k j, k ≤ j → Chip8.rdLoad V mem i k j = V j := by
  intro k
  induction k with
  | zero => intro j _; rfl
  | succ k ih =>
      intro j hj
      simp only [Chip8.rdLoad]
      rw [Function.update_noteq (by omega : j ≠ k)]
      exact ih j (by omega)

/-- C6: each block-transfer instruction copies exactly `x+1` values between
`V[0..=x]` and its store starting at index `I` (memory for `Fx55`/`Fx65`,
the persistent flag file `R` for `Fx75`/`Fx85`, which the source indexes
from `I` as well), leaves everything outside that window alone, then
increments `I` by `x+1` and advances `pc` by 2. -/
theorem block_transfer_spec (s : Chip8) (x : Nat) (_hx : x < 16)
    (hmem : s.I + x < 4096) (hpc : s.pc + 2 < 65536) :
    ((∀ c, c ≤ x → (Chip8.store_v0_vx s x).memory (s.I + c) = s.V c) ∧
      (∀ a, (∀ c, c ≤ x → a ≠ s.I + c) → (Chip8.store_v0_vx s x).memory a = s.memory a) ∧
      (Chip8.store_v0_vx s x).I = s.I + x + 1 ∧
      (Chip8.store_v0_vx s x).pc = s.pc + 2) ∧
    ((∀ c, c ≤ x → (Chip8.read_v0_vx s x).V c = s.memory (s.I + c)) ∧
      (∀ j, x < j → (Chip8.read_v0_vx s x).V j = s.V j) ∧
      (Chip8.read_v0_vx s x).I = s.I + x + 1 ∧
      (Chip8.read_v0_vx s x).pc = s.pc + 2) ∧
    ((∀ c, c ≤ x → (Chip8.store_rpl_v0_vx s x).R (s.I + c) = s.V c) ∧
      (∀ a, (∀ c, c ≤ x → a ≠ s.I + c) → (Chip8.store_rpl_v0_vx s x).R a = s.R a) ∧
      (Chip8.store_rpl_v0_vx s x).I = s.I + x + 1 ∧
      (Chip8.store_rpl_v0_vx s x).pc = s.pc + 2) ∧
    ((∀ c, c ≤ x → (Chip8.read_rpl_v0_vx s x).V c = s.R (s.I + c)) ∧
      (∀ j, x < j → (Chip8.read_rpl_v0_vx s x).V j = s.V j) ∧
      (Chip8.read_rpl_v0_vx s x).I = s.I + x + 1 ∧
      (Chip8.read_rpl_v0_vx s x).pc = s.pc + 2) := by
  have hI : (s.I + x + 1) % 65536 = s.I + x + 1 := Nat.mod_eq_of_lt (by omega)
  have hp : (s.pc + 2) % 65536 = s.pc + 2 := Nat.mod_eq_of_lt hpc
  refine ⟨⟨?_, ?_, ?_, ?_⟩, ⟨?_, ?_, ?_, ?_⟩, ⟨?_, ?_, ?_, ?_⟩, ⟨?_, ?_, ?_, ?_⟩⟩
  · intro c hc
    exact wrStore_lt s.memory s.V s.I (x + 1) c (by omega)
  · intro a ha
    exact wrStore_out s.memory s.V s.I (x + 1) a (fun c hc => ha c (by omega))
  · simp [Chip8.store_v0_vx, hI]
  · simp [Chip8.store_v0_vx, hp]
  · intro c hc
    exact rdLoad_lt s.V s.memory s.I (x + 1) c (by omega)
  · intro j hj
    exact rdLoad_ge s.V s.memory s.I (x + 1) j (by omega)
  · simp [Chip8.read_v0_vx, hI]
  · simp [Chip8.read_v0_vx, hp]
  · intro c hc
    exact wrStore_lt s.R s.V s.I (x + 1) c (by omega)
  · intro a ha
    exact wrStore_out s.R s.V s.I (x + 1) a (fun c hc => ha c (by omega))
  · simp [Chip8.store_rpl_v0_vx, hI]
  · simp [Chip8.store_rpl_v0_vx, hp]
  · intro c hc
    exact rdLoad_lt s.V s.R s.I (x + 1) c (by omega)
  · intro j hj
    exact rdLoad_ge s.V s.R s.I (x + 1) j (by omega)
  · simp [Chip8.read_rpl_v0_vx, hI]
  · simp [Chip8.read_rpl_v0_vx, hp]

/-- C6 witness: `x = 1` transfers on the fresh machine (`I = 0`). -/
theorem block_transfer_spec_witness :
    (Chip8.store_v0_vx Chip8.new 1).memory (Chip8.new.I + 0) = Chip8.new.V 0 ∧
    (Chip8.store_v0_vx Chip8.new 1).I = Chip8.new.I + 1 + 1 ∧
    (Chip8.read_rpl_v0_vx Chip8.new 1).V 1 = Chip8.new.R (Chip8.new.I + 1) ∧
    (Chip8.read_v0_vx Chip8.new 1).pc = Chip8.new.pc + 2 := by
  have h := block_transfer_spec Chip8.new 1 (by decide) (by decide) (by decide)
  exact ⟨h.1.1 0 (by decide), h.1.2.2.1, h.2.2.2.1 1 (by decide), h.2.1.2.2.2⟩

/-- Within one sprite the 8 columns cannot alias across rows: distinct
`(row, col)` pairs with `col < 8` target distinct pixel indices. -/
theorem dPos_inj (vx vy : Nat) (p q : Nat × Nat) (hp : p.2 < 8) (hq : q.2 < 8)
    (h : Chip8.dPos vx vy p = Chip8.dPos vx vy q) : p = q := by
  obtain ⟨a, b⟩ := p
  obtain ⟨c, d⟩ := q
  simp only [Chip8.dPos] at h hp hq
  have hac : a = c ∧ b = d := by omega
  rw [hac.1, hac.2]

/-- Membership in the low-resolution sprite walk. -/
theorem mem_sprPositions (n a b : Nat) :
    (a, b) ∈ Chip8.sprPositions n ↔ a < n ∧ b < 8 := by
  induction n with
  | zero => simp [Chip8.sprPositions]
  | succ n ih =>
      simp only [Chip8.sprPositions, List.mem_append, List.mem_map, List.mem_range, ih]
      constructor
      · rintro (⟨h1, h2⟩ | ⟨c, hc, he⟩)
        · exact ⟨by omega, h2⟩
        · obtain ⟨rfl, rfl⟩ := Prod.mk.injEq .. ▸ he
          exact ⟨by omega, hc⟩
      · rintro ⟨h1, h2⟩
        by_cases h : a < n
        · exact Or.inl ⟨h, h2⟩
        · right
          exact ⟨b, h2, by rw [show n = a by omega]⟩

/-- The pixel indices visited by the low-resolution walk are pairwise
distinct. -/
theorem sprPositions_pairwise (vx vy n : Nat) :
    List.Pairwise (fun p q => Chip8.dPos vx vy p ≠ Chip8.dPos vx vy q)
      (Chip8.sprPositions n) := by
  induction n with
  | zero => simp [Chip8.sprPositions]
  | succ n ih =>
      simp only [Chip8.sprPositions]
      rw [List.pairwise_append]
      refine ⟨ih, ?_, ?_⟩
      · rw [List.pairwise_map]
        refine List.Pairwise.imp_of_mem ?_ (List.pairwise_lt_range 8)
        intro c1 c2 hc1 hc2 hlt heq
        have := dPos_inj vx vy (n, c1) (n, c2)
          (by simpa using List.mem_range.mp hc1) (by simpa using List.mem_range.mp hc2) heq
        have : c1 = c2 := congrArg Prod.snd this
        omega
      · rintro ⟨a, b⟩ hp q hq heq
        obtain ⟨c, hc, rfl⟩ := List.mem_map.mp hq
        have hab := (mem_sprPositions n a b).mp hp
        have := dPos_inj vx vy (a, b) (n, c) hab.2 (by simpa using hc) heq
        have : a = n := congrArg Prod.fst this
        omega

/-- Characterization of the low-resolution draw loop: over any walk with
pairwise-distinct pixel targets, a pixel hit by a set sprite bit is XORed
once, every other pixel is untouched, and the collision accumulator ends 1
exactly when some set bit targeted a pixel holding 1 at loop entry. -/
theorem foldl_drawStep_char (mem : Nat → Nat) (i vx vy : Nat) :
    ∀ (L : List (Nat × Nat)) (gfx : Nat → Nat) (flag : Nat),
      List.Pairwise (fun p q => Chip8.dPos vx vy p ≠ Chip8.dPos vx vy q) L →
      ((∀ g, (∃ p ∈ L, mem (i + p.1) &&& (128 >>> p.2) ≠ 0 ∧ Chip8.dPos vx vy p = g) →
          (List.foldl (Chip8.drawStep mem i vx vy) (gfx, flag) L).1 g = gfx g ^^^ 1) ∧
       (∀ g, (¬ ∃ p ∈ L, mem (i + p.1) &&& (128 >>> p.2) ≠ 0 ∧ Chip8.dPos vx vy p = g) →
          (List.foldl (Chip8.drawStep mem i vx vy) (gfx, flag) L).1 g = gfx g) ∧
       ((∃ p ∈ L, mem (i + p.1) &&& (128 >>> p.2) ≠ 0 ∧ gfx (Chip8.dPos vx vy p) = 1) →
          (List.foldl (Chip8.drawStep mem i vx vy) (gfx, flag) L).2 = 1) ∧
       ((¬ ∃ p ∈ L, mem (i + p.1) &&& (128 >>> p.2) ≠ 0 ∧ gfx (Chip8.dPos vx vy p) = 1) →
          (List.foldl (Chip8.drawStep mem i vx vy) (gfx, flag) L).2 = flag)) := by
  intro L
  induction L with
  | nil => intro gfx flag _; simp
  | cons p L ih =>
      intro gfx flag hpw
      rw [List.pairwise_cons] at hpw
      obtain ⟨hhead, htail⟩ := hpw
      by_cases hset : mem (i + p.1) &&& (128 >>> p.2) ≠ 0
      · have hstep : Chip8.drawStep mem i vx vy (gfx, flag) p =
            (Function.update gfx (Chip8.dPos vx vy p) (gfx (Chip8.dPos vx vy p) ^^^ 1),
             if gfx (Chip8.dPos vx vy p) = 1 then 1 else flag) := by
          simp only [Chip8.drawStep]
          rw [if_pos hset]
        have IH := ih (Function.update gfx (Chip8.dPos vx vy p) (gfx (Chip8.dPos vx vy p) ^^^ 1))
          (if gfx (Chip8.dPos vx vy p) = 1 then 1 else flag) htail
        refine ⟨?_, ?_, ?_, ?_⟩
        · intro g hg
          obtain ⟨q, hqmem, hqset, hqpos⟩ := hg
          rw [List.foldl_cons, hstep]
          rcases List.mem_cons.mp hqmem with rfl | hqL
          · have hnoL : ¬ ∃ q' ∈ L, mem (i + q'.1) &&& (128 >>> q'.2) ≠ 0 ∧
                Chip8.dPos vx vy q' = g := by
              rintro ⟨q', hq'L, _, hq'pos⟩
              exact hhead q' hq'L (by rw [hqpos, hq'pos])
            rw [IH.2.1 g hnoL, ← hqpos, Function.update_same]
          · have hne : Chip8.dPos vx vy q ≠ Chip8.dPos vx vy p := fun he =>
              hhead q hqL he.symm
            rw [IH.1 g ⟨q, hqL, hqset, hqpos⟩, ← hqpos,
              Function.update_noteq hne]
        · intro g hg
          rw [List.foldl_cons, hstep]
          have hgp : Chip8.dPos vx vy p ≠ g := by
            intro he
            exact hg ⟨p, List.mem_cons_self p L, hset, he⟩
          have hnoL : ¬ ∃ q ∈ L, mem (i + q.1) &&& (128 >>> q.2) ≠ 0 ∧
              Chip8.dPos vx vy q = g := by
            rintro ⟨q, hqL, hqset, hqpos⟩
            exact hg ⟨q, List.mem_cons_of_mem p hqL, hqset, hqpos⟩
          rw [IH.2.1 g hnoL, Function.update_noteq (fun he => hgp he.symm)]
        · rintro ⟨q, hqmem, hqset, hqlit⟩
          rw [List.foldl_cons, hstep]
          rcases List.mem_cons.mp hqmem with rfl | hqL
          · by_cases hL : ∃ q' ∈ L, mem (i + q'.1) &&& (128 >>> q'.2) ≠ 0 ∧
                Function.update gfx (Chip8.dPos vx vy q) (gfx (Chip8.dPos vx vy q) ^^^ 1)
                  (Chip8.dPos vx vy q') = 1
            · exact IH.2.2.1 hL
            · rw [IH.2.2.2 hL, if_pos hqlit]
          · have hne : Chip8.dPos vx vy q ≠ Chip8.dPos vx vy p := fun he =>
              hhead q hqL he.symm
            refine IH.2.2.1 ⟨q, hqL, hqset, ?_⟩
            rw [Function.update_noteq hne, hqlit]
        · intro hg
          rw [List.foldl_cons, hstep]
          have hplit : ¬ gfx (Chip8.dPos vx vy p) = 1 := by
            intro he
            exact hg ⟨p, List.mem_cons_self p L, hset, he⟩
          have hnoL : ¬ ∃ q ∈ L, mem (i + q.1) &&& (128 >>> q.2) ≠ 0 ∧
              Function.update gfx (Chip8.dPos vx vy p) (gfx (Chip8.dPos vx vy p) ^^^ 1)
                (Chip8.dPos vx vy q) = 1 := by
            rintro ⟨q, hqL, hqset, hqlit⟩
            have hne : Chip8.dPos vx vy q ≠ Chip8.dPos vx vy p := fun he =>
              hhead q hqL he.symm
            rw [Function.update_noteq hne] at hqlit
            exact hg ⟨q, List.mem_cons_of_mem p hqL, hqset, hqlit⟩
          rw [IH.2.2.2 hnoL, if_neg hplit]
      · have hstep : Chip8.drawStep mem i vx vy (gfx, flag) p = (gfx, flag) := by
          simp only [Chip8.drawStep]
          rw [if_neg hset]
        have IH := ih gfx flag htail
        refine ⟨?_, ?_, ?_, ?_⟩
        · intro g hg
          obtain ⟨q, hqmem, hqset, hqpos⟩ := hg
          rcases List.mem_cons.mp hqmem with rfl | hqL
          · exact absurd hqset hset
          · rw [List.foldl_cons, hstep]
            exact IH.1 g ⟨q, hqL, hqset, hqpos⟩
        · intro g hg
          rw [List.foldl_cons, hstep]
          refine IH.2.1 g ?_
          rintro ⟨q, hqL, hqset, hqpos⟩
          exact hg ⟨q, List.mem_cons_of_mem p hqL, hqset, hqpos⟩
        · rintro ⟨q, hqmem, hqset, hqlit⟩
          rcases List.mem_cons.mp hqmem with rfl | hqL
          · exact absurd hqset hset
          · rw [List.foldl_cons, hstep]
            exact IH.2.2.1 ⟨q, hqL, hqset, hqlit⟩
        · intro hg
          rw [List.foldl_cons, hstep]
          refine IH.2.2.2 ?_
          rintro ⟨q, hqL, hqset, hqlit⟩
          exact hg ⟨q, List.mem_cons_of_mem p hqL, hqset, hqlit⟩

/-- On the low-resolution path (`hgr` off or `n ≠ 0`) the draw handler is
exactly the loop fold plus the flag/bookkeeping writes. -/
theorem draw_x_y_low_eq (s : Chip8) (x y n : Nat) (hlow : ¬(s.hgr = true ∧ n = 0)) :
    Chip8.draw_x_y_low s x y n =
      { s with
          gfx := (List.foldl (Chip8.drawStep s.memory s.I (s.V x) (s.V y))
            (s.gfx, 0) (Chip8.sprPositions n)).1,
          V := Function.update s.V 15
            (List.foldl (Chip8.drawStep s.memory s.I (s.V x) (s.V y))
              (s.gfx, 0) (Chip8.sprPositions n)).2,
          draw_flag := true, pc := (s.pc + 2) % 65536 } := by
  simp only [Chip8.draw_x_y_low]
  rw [if_neg hlow]

/-- C7: under in-bounds preconditions (and `x, y ≠ 0xF`, so the collision
flag write cannot disturb the coordinates), drawing the same low-resolution
sprite twice restores every framebuffer pixel; on each draw `V[0xF]` ends 1
exactly when some set sprite bit hit a pixel holding 1 at the start of that
draw; and from a clear affected region the first draw reports 0 and the
second reports 1 exactly when the sprite has any set bit. -/
theorem draw_twice_spec (s : Chip8) (x y n : Nat)
    (hx : x ≠ 15) (hy : y ≠ 15) (hlow : ¬(s.hgr = true ∧ n = 0))
    (_hbound : ∀ r c, r < n → c < 8 → s.V x + c + (s.V y + r) * 64 < 2048)
    (_hspr : s.I + n ≤ 4096) :
    (∀ g, (Chip8.draw_x_y_low (Chip8.draw_x_y_low s x y n) x y n).gfx g = s.gfx g) ∧
    ((Chip8.draw_x_y_low s x y n).V 15 = 1 ↔
      (∃ r, r < n ∧ ∃ c, c < 8 ∧ (s.memory (s.I + r) &&& (128 >>> c) ≠ 0 ∧
        s.gfx (s.V x + c + (s.V y + r) * 64) = 1))) ∧
    ((Chip8.draw_x_y_low (Chip8.draw_x_y_low s x y n) x y n).V 15 = 1 ↔
      (∃ r, r < n ∧ ∃ c, c < 8 ∧ (s.memory (s.I + r) &&& (128 >>> c) ≠ 0 ∧
        (Chip8.draw_x_y_low s x y n).gfx (s.V x + c + (s.V y + r) * 64) = 1))) ∧
    ((∀ r c, r < n → c < 8 → s.memory (s.I + r) &&& (128 >>> c) ≠ 0 →
        s.gfx (s.V x + c + (s.V y + r) * 64) = 0) →
      (Chip8.draw_x_y_low s x y n).V 15 = 0 ∧
      ((Chip8.draw_x_y_low (Chip8.draw_x_y_low s x y n) x y n).V 15 = 1 ↔
        (∃ r, r < n ∧ ∃ c, c < 8 ∧ s.memory (s.I + r) &&& (128 >>> c) ≠ 0))) := by
  have hdp : ∀ r c : Nat, Chip8.dPos (s.V x) (s.V y) (r, c) = s.V x + c + (s.V y + r) * 64 :=
    fun r c => rfl
  have hpw := sprPositions_pairwise (s.V x) (s.V y) n
  have hchar1 := foldl_drawStep_char s.memory s.I (s.V x) (s.V y)
    (Chip8.sprPositions n) s.gfx 0 hpw
  have heq1 := draw_x_y_low_eq s x y n hlow
  have hs1gfx : (Chip8.draw_x_y_low s x y n).gfx =
      (List.foldl (Chip8.drawStep s.memory s.I (s.V x) (s.V y)) (s.gfx, 0)
        (Chip8.sprPositions n)).1 := by rw [heq1]
  have hs1V15 : (Chip8.draw_x_y_low s x y n).V 15 =
      (List.foldl (Chip8.drawStep s.memory s.I (s.V x) (s.V y)) (s.gfx, 0)
        (Chip8.sprPositions n)).2 := by
    rw [heq1]
    rfl
  have hs1Vx : (Chip8.draw_x_y_low s x y n).V x = s.V x := by
    rw [heq1]
    exact Function.update_noteq hx _ _
  have hs1Vy : (Chip8.draw_x_y_low s x y n).V y = s.V y := by
    rw [heq1]
    exact Function.update_noteq hy _ _
  have hs1mem : (Chip8.draw_x_y_low s x y n).memory = s.memory := by rw [heq1]
  have hs1I : (Chip8.draw_x_y_low s x y n).I = s.I := by rw [heq1]
  have hs1hgr : (Chip8.draw_x_y_low s x y n).hgr = s.hgr := by rw [heq1]
  have hlow1 : ¬((Chip8.draw_x_y_low s x y n).hgr = true ∧ n = 0) := by
    rw [hs1hgr]
    exact hlow
  have heq2 := draw_x_y_low_eq (Chip8.draw_x_y_low s x y n) x y n hlow1
  rw [hs1mem, hs1I, hs1Vx, hs1Vy, hs1gfx] at heq2
  have hchar2 := foldl_drawStep_char s.memory s.I (s.V x) (s.V y) (Chip8.sprPositions n)
    (List.foldl (Chip8.drawStep s.memory s.I (s.V x) (s.V y)) (s.gfx, 0)
      (Chip8.sprPositions n)).1 0 hpw
  have hs2gfx : (Chip8.draw_x_y_low (Chip8.draw_x_y_low s x y n) x y n).gfx =
      (List.foldl (Chip8.drawStep s.memory s.I (s.V x) (s.V y))
        ((List.foldl (Chip8.drawStep s.memory s.I (s.V x) (s.V y)) (s.gfx, 0)
          (Chip8.sprPositions n)).1, 0) (Chip8.sprPositions n)).1 := by rw [heq2]
  have hs2V15 : (Chip8.draw_x_y_low (Chip8.draw_x_y_low s x y n) x y n).V 15 =
      (List.foldl (Chip8.drawStep s.memory s.I (s.V x) (s.V y))
        ((List.foldl (Chip8.drawStep s.memory s.I (s.V x) (s.V y)) (s.gfx, 0)
          (Chip8.sprPositions n)).1, 0) (Chip8.sprPositions n)).2 := by
    rw [heq2]
    rfl
  refine ⟨?_, ?_, ?_, ?_⟩
  · intro g
    rw [hs2gfx]
    by_cases hhit : ∃ p ∈ Chip8.sprPositions n,
        s.memory (s.I + p.1) &&& (128 >>> p.2) ≠ 0 ∧ Chip8.dPos (s.V x) (s.V y) p = g
    · rw [hchar2.1 g hhit, hchar1.1 g hhit, Nat.xor_assoc,
        show (1 : Nat) ^^^ 1 = 0 from rfl, Nat.xor_zero]
    · rw [hchar2.2.1 g hhit, hchar1.2.1 g hhit]
  · rw [hs1V15]
    constructor
    · intro hone
      by_contra hno
      have hnoL : ¬ ∃ p ∈ Chip8.sprPositions n,
          s.memory (s.I + p.1) &&& (128 >>> p.2) ≠ 0 ∧
          s.gfx (Chip8.dPos (s.V x) (s.V y) p) = 1 := by
        rintro ⟨⟨r, c⟩, hmem, hset, hlit⟩
        have hrc := (mem_sprPositions n r c).mp hmem
        apply hno
        refine ⟨r, hrc.1, c, hrc.2, hset, ?_⟩
        rw [← hdp r c]
        exact hlit
      have := hchar1.2.2.2 hnoL
      omega
    · rintro ⟨r, hr, c, hc, hset, hlit⟩
      apply hchar1.2.2.1
      refine ⟨(r, c), (mem_sprPositions n r c).mpr ⟨hr, hc⟩, hset, ?_⟩
      rw [hdp r c]
      exact hlit
  · rw [hs2V15, hs1gfx]
    constructor
    · intro hone
      by_contra hno
      have hnoL : ¬ ∃ p ∈ Chip8.sprPositions n,
          s.memory (s.I + p.1) &&& (128 >>> p.2) ≠ 0 ∧
          (List.foldl (Chip8.drawStep s.memory s.I (s.V x) (s.V y)) (s.gfx, 0)
            (Chip8.sprPositions n)).1 (Chip8.dPos (s.V x) (s.V y) p) = 1 := by
        rintro ⟨⟨r, c⟩, hmem, hset, hlit⟩
        have hrc := (mem_sprPositions n r c).mp hmem
        apply hno
        refine ⟨r, hrc.1, c, hrc.2, hset, ?_⟩
        rw [← hdp r c]
        exact hlit
      have := hchar2.2.2.2 hnoL
      omega
    · rintro ⟨r, hr, c, hc, hset, hlit⟩
      apply hchar2.2.2.1
      refine ⟨(r, c), (mem_sprPositions n r c).mpr ⟨hr, hc⟩, hset, ?_⟩
      rw [hdp r c]
      exact hlit
  · intro hclear
    constructor
    · rw [hs1V15]
      refine hchar1.2.2.2 ?_
      rintro ⟨⟨r, c⟩, hmem, hset, hlit⟩
      have hrc := (mem_sprPositions n r c).mp hmem
      have h0 := hclear r c hrc.1 hrc.2 hset
      rw [hdp r c] at hlit
      omega
    · rw [hs2V15]
      constructor
      · intro hone
        by_contra hno
        have hnoL : ¬ ∃ p ∈ Chip8.sprPositions n,
            s.memory (s.I + p.1) &&& (128 >>> p.2) ≠ 0 ∧
            (List.foldl (Chip8.drawStep s.memory s.I (s.V x) (s.V y)) (s.gfx, 0)
              (Chip8.sprPositions n)).1 (Chip8.dPos (s.V x) (s.V y) p) = 1 := by
          rintro ⟨⟨r, c⟩, hmem, hset, _⟩
          have hrc := (mem_sprPositions n r c).mp hmem
          exact hno ⟨r, hrc.1, c, hrc.2, hset⟩
        have := hchar2.2.2.2 hnoL
        omega
      · rintro ⟨r, hr, c, hc, hset⟩
        apply hchar2.2.2.1
        refine ⟨(r, c), (mem_sprPositions n r c).mpr ⟨hr, hc⟩, hset, ?_⟩
        rw [hchar1.1 (Chip8.dPos (s.V x) (s.V y) (r, c))
          ⟨(r, c), (mem_sprPositions n r c).mpr ⟨hr, hc⟩, hset, rfl⟩]
        have h0 := hclear r c hr hc hset
        rw [hdp r c, h0]
        rfl

/-- C7 witness: drawing the single-pixel sprite twice at the origin leaves
the framebuffer unchanged; the first draw reports no collision and the
second reports one. -/
theorem draw_twice_spec_witness :
    (∀ g, (Chip8.draw_x_y_low (Chip8.draw_x_y_low exC7 0 1 1) 0 1 1).gfx g = exC7.gfx g) ∧
    (Chip8.draw_x_y_low exC7 0 1 1).V 15 = 0 ∧
    (Chip8.draw_x_y_low (Chip8.draw_x_y_low exC7 0 1 1) 0 1 1).V 15 = 1 := by
  have h := draw_twice_spec exC7 0 1 1 (by decide) (by decide) (by decide)
    (by
      intro r c hr hc
      have h0 : exC7.V 0 = 0 := rfl
      have h1 : exC7.V 1 = 0 := rfl
      rw [h0, h1]
      omega)
    (by
      have hI : exC7.I = 0 := rfl
      rw [hI]
      omega)
  have hcl := h.2.2.2 (by intro r c hr hc hset; rfl)
  refine ⟨h.1, hcl.1, ?_⟩
  rw [hcl.2]
  exact ⟨0, by omega, 0, by omega, by decide⟩

/-- The low-resolution draw loop preserves a {0,1}-valued cell pointwise. -/
theorem foldl_drawStep_01 (mem : Nat → Nat) (i vx vy : Nat) :
    ∀ (L : List (Nat × Nat)) (acc : (Nat → Nat) × Nat) (g : Nat),
      (acc.1 g = 0 ∨ acc.1 g = 1) →
      ((List.foldl (Chip8.drawStep mem i vx vy) acc L).1 g = 0 ∨
        (List.foldl (Chip8.drawStep mem i vx vy) acc L).1 g = 1) := by
  intro L
  induction L with
  | nil => intro acc g hg; exact hg
  | cons p L ih =>
      intro acc g hg
      rw [List.foldl_cons]
      apply ih
      by_cases hset : mem (i + p.1) &&& (128 >>> p.2) ≠ 0
      · simp only [Chip8.drawStep]
        rw [if_pos hset]
        by_cases hgp : g = Chip8.dPos vx vy p
        · subst hgp
          dsimp only
          rw [Function.update_same]
          rcases hg with h | h <;> rw [h] <;> decide
        · dsimp only
          rw [Function.update_noteq hgp]
          exact hg
      · simp only [Chip8.drawStep]
        rw [if_neg hset]
        exact hg

/-- The high-resolution draw loop preserves a {0,1}-valued cell pointwise. -/
theorem foldl_drawStepH_01 (mem : Nat → Nat) (i vx vy : Nat) :
    ∀ (L : List (Nat × Nat)) (acc : (Nat → Nat) × Nat) (g : Nat),
      (acc.1 g = 0 ∨ acc.1 g = 1) →
      ((List.foldl (Chip8.drawStepH mem i vx vy) acc L).1 g = 0 ∨
        (List.foldl (Chip8.drawStepH mem i vx vy) acc L).1 g = 1) := by
  intro L
  induction L with
  | nil => intro acc g hg; exact hg
  | cons p L ih =>
      intro acc g hg
      rw [List.foldl_cons]
      apply ih
      by_cases hset : ((mem (i + 2 * p.1) <<< 8) ||| mem (i + 1 + 2 * p.1)) &&& (32768 >>> p.2) ≠ 0
      · simp only [Chip8.drawStepH]
        rw [if_pos hset]
        by_cases hgp : g = Chip8.dPos vx vy p
        · subst hgp
          dsimp only
          rw [Function.update_same]
          rcases hg with h | h <;> rw [h] <;> decide
        · dsimp only
          rw [Function.update_noteq hgp]
          exact hg
      · simp only [Chip8.drawStepH]
        rw [if_neg hset]
        exact hg

/-- The scroll-down copy loop preserves "all visible cells hold 0 or 1":
each copied value comes from a cell below index 256, which is visible. -/
theorem foldl_scrollStep_01 (start : Nat) :
    ∀ (L : List (Nat × Nat)) (gfx : Nat → Nat),
      (∀ g, g < 2048 → gfx g = 0 ∨ gfx g = 1) →
      ∀ g, g < 2048 →
        List.foldl (Chip8.scrollStep start) gfx L g = 0 ∨
        List.foldl (Chip8.scrollStep start) gfx L g = 1 := by
  intro L
  induction L with
  | nil => intro gfx hgfx; exact hgfx
  | cons rc L ih =>
      intro gfx hgfx
      rw [List.foldl_cons]
      apply ih
      intro g hg
      simp only [Chip8.scrollStep]
      by_cases hgt : g = (rc.1 * 64 + rc.2) % 256
      · subst hgt
        rw [Function.update_same]
        exact hgfx _ (by have := Nat.mod_lt ((rc.1 - start) * 64 + rc.2) (show 0 < 256 by omega); omega)
      · rw [Function.update_noteq hgt]
        exact hgfx g hg

/-- C10: starting from the all-zero framebuffer, every gfx-writing
operation (clear, scroll-down, low- and high-resolution XOR draw under
their in-bounds preconditions) keeps every visible cell in {0,1}, so the
spec's "nonzero = on" reading coincides with the code's `== 1` test. -/
theorem gfx_zero_one_invariant :
    (∀ g, g < 2048 → Chip8.new.gfx g = 0) ∧
    (∀ s, gfxOk s → gfxOk (Chip8.draw_clear s)) ∧
    (∀ s x, gfxOk s → gfxOk (Chip8.scroll_down s x)) ∧
    (∀ s x y n, gfxOk s →
      (∀ r c, r < n → c < 8 → s.V x + c + (s.V y + r) * 64 < 2048) →
      gfxOk (Chip8.draw_x_y_low s x y n)) ∧
    (∀ s x y, gfxOk s →
      (∀ r c, r < 15 → c < 15 → s.V x + c + (s.V y + r) * 64 < 2048) →
      gfxOk (Chip8.draw_x_y_high s x y)) ∧
    (∀ s, gfxOk s → ∀ g, g < 2048 → (s.gfx g ≠ 0 ↔ s.gfx g = 1)) := by
  have hhigh : ∀ s x y, gfxOk s → gfxOk (Chip8.draw_x_y_high s x y) := by
    intro s x y hs g hg
    have hgfx : (Chip8.draw_x_y_high s x y).gfx =
        (List.foldl (Chip8.drawStepH s.memory s.I (s.V x) (s.V y)) (s.gfx, 0)
          Chip8.sprPositionsH).1 := rfl
    rw [hgfx]
    exact foldl_drawStepH_01 s.memory s.I (s.V x) (s.V y) Chip8.sprPositionsH
      (s.gfx, 0) g (hs g hg)
  refine ⟨?_, ?_, ?_, ?_, ?_, ?_⟩
  · intro g _
    rfl
  · intro s _ g _
    exact Or.inl rfl
  · intro s x hs g hg
    have hgfx : (Chip8.scroll_down s x).gfx =
        List.foldl (Chip8.scrollStep (s.V x)) s.gfx (Chip8.scrollCells (s.V x)) := rfl
    rw [hgfx]
    exact foldl_scrollStep_01 (s.V x) (Chip8.scrollCells (s.V x)) s.gfx hs g hg
  · intro s x y n hs _
    by_cases hb : s.hgr = true ∧ n = 0
    · have hlow : Chip8.draw_x_y_low s x y n = Chip8.draw_x_y_high s x y := by
        simp only [Chip8.draw_x_y_low]
        rw [if_pos hb]
      rw [hlow]
      exact hhigh s x y hs
    · intro g hg
      have hgfx : (Chip8.draw_x_y_low s x y n).gfx =
          (List.foldl (Chip8.drawStep s.memory s.I (s.V x) (s.V y)) (s.gfx, 0)
            (Chip8.sprPositions n)).1 := by
        rw [draw_x_y_low_eq s x y n hb]
      rw [hgfx]
      exact foldl_drawStep_01 s.memory s.I (s.V x) (s.V y) (Chip8.sprPositions n)
        (s.gfx, 0) g (hs g hg)
  · intro s x y hs _
    exact hhigh s x y hs
  · intro s hs g hg
    rcases hs g hg with h | h <;> rw [h] <;> simp

/-- C10 witness: the invariant clauses applied to the fresh machine
(clear, and a 1-row draw at the origin). -/
theorem gfx_zero_one_invariant_witness :
    gfxOk (Chip8.draw_clear Chip8.new) ∧
    gfxOk (Chip8.draw_x_y_low Chip8.new 0 1 1) ∧
    gfxOk (Chip8.scroll_down Chip8.new 2) := by
  have h := gfx_zero_one_invariant
  refine ⟨h.2.1 Chip8.new (fun g _ => Or.inl rfl), ?_, h.2.2.1 Chip8.new 2 (fun g _ => Or.inl rfl)⟩
  refine h.2.2.2.1 Chip8.new 0 1 1 (fun g _ => Or.inl rfl) ?_
  intro r c hr hc
  have h0 : Chip8.new.V 0 = 0 := rfl
  have h1 : Chip8.new.V 1 = 0 := rfl
  rw [h0, h1]
  omega
